import Mathlib

/-!
Verification of the signalk-hts-bod plugin core against its specification.

JavaScript numbers are modelled as exact rationals: Math.PI is embedded as
the exact value of the IEEE-754 double closest to π, the JS operator % as
truncated remainder, Math.round as the floor of x + 1/2 (JS rounds halves
toward +∞), and toFixed-style formatting over the already-quantised values
the program produces.  Math.sin and Math.cos are treated as oracle
functions ℚ → ℚ wherever the code calls them.  Absent or non-numeric
telemetry values are modelled as Option.none.
-/

namespace SignalkHts

/-! ## Numeric core -/

/-- Exact rational value of the IEEE-754 double Math.PI. -/
def jsPI : ℚ := 884279719003555 / 281474976710656

/-- Truncation toward zero, as performed by the JS operator %
on the quotient (the negative branch uses the identity ⌈q⌉ = -⌊-q⌋). -/
def qtrunc (q : ℚ) : ℤ := if 0 ≤ q then ⌊q⌋ else -⌊-q⌋

/-- The JS remainder a % b (its sign follows the dividend). -/
def jsMod (a b : ℚ) : ℚ := a - b * qtrunc (a / b)

/-- Math.round: nearest integer, halves toward +∞. -/
def jsRound (q : ℚ) : ℤ := ⌊q + 1/2⌋

/-- Function wrap360 from the source: reduce modulo 360, shift a negative
remainder up by 360, then round to one decimal place. -/
def wrap360 (deg : ℚ) : ℚ :=
  let d := jsMod deg 360
  let d2 := if d < 0 then d + 360 else d
  (jsRound (d2 * 10) : ℚ) / 10

/-- Function radToDeg from the source. -/
def radToDeg (r : ℚ) : ℚ := r * 180 / jsPI

/-- Function degToRad from the source. -/
def degToRad (d : ℚ) : ℚ := d * jsPI / 180

/-- Function round2 from the source: round to two decimal places. -/
def round2 (n : ℚ) : ℚ := (jsRound (n * 100) : ℚ) / 100

/-- Function readAngleDeg from the source, applied to the value already
fetched from the telemetry path (none models an absent or non-numeric
value): treat the reading as radians when its magnitude is at most
2π + 0.5, else as degrees, then wrap. -/
def readAngleDeg (v : Option ℚ) : Option ℚ :=
  match v with
  | none => none
  | some num =>
    some (if |num| ≤ jsPI * 2 + 1/2 then wrap360 (radToDeg num) else wrap360 num)

/-! ## Navigation fusion (computeStatus, lines 314-333 of the source) -/

/-- Source tag for the fused COG-magnetic value.  The source stores path
strings: the direct path, the string "cogTrue path + variation", the
string "hdgMag path (fallback)", or null; this inductive mirrors those
four mutually distinct values. -/
inductive CogSource where
  | direct
  | derivedFromTrue
  | fallbackHeading
  | none
deriving DecidableEq

/-- Best-available COG-magnetic selection from computeStatus.  Inputs are
the degree values produced by readAngleDeg for the cogMag, cogTrue,
variation and hdgMag paths (none when the reading is absent). -/
def bestCogMag (cogMag cogTrue variation hdgMag : Option ℚ) : Option ℚ × CogSource :=
  match cogMag with
  | some x => (some x, .direct)
  | Option.none =>
    match cogTrue, variation with
    | some t, some v => (some (wrap360 (t - v)), .derivedFromTrue)
    | _, _ =>
      match hdgMag with
      | some h => (some h, .fallbackHeading)
      | Option.none => (Option.none, .none)

/-- The best-available record consumed by the command handlers and the
output loop: the best fields of the status computed by computeStatus. -/
structure Best where
  position : Option (ℚ × ℚ)
  positionFresh : Bool
  variationDeg : Option ℚ
  cogMagDeg : Option ℚ
  headingMagDeg : Option ℚ
deriving DecidableEq

/-! ## Autopilot state machine -/

/-- Output mode: BOD is heading hold, APB is rhumb-line track hold. -/
inductive Mode where
  | BOD
  | APB
deriving DecidableEq

/-- The mutable plugin state (module-level variables of the source).
The constant trackName is never mutated and is omitted. -/
structure State where
  enabled : Bool
  mode : Mode
  targetMagDeg : Option ℚ
  trackActive : Bool
  trackStart : Option (ℚ × ℚ)
  trackBearingMagDeg : Option ℚ
  trackBearingTrueDeg : Option ℚ
deriving DecidableEq

/-- The startup state: disabled, heading-hold mode, no target, no track. -/
def init : State :=
  { enabled := false
    mode := .BOD
    targetMagDeg := none
    trackActive := false
    trackStart := none
    trackBearingMagDeg := none
    trackBearingTrueDeg := none }

/-- The commands accepted by the /cmd route.  set_heading carries
Number(v), with none modelling a non-finite value. -/
inductive Cmd where
  | enable
  | disable
  | mode_bod
  | mode_apb
  | hold_heading
  | set_heading (v : Option ℚ)
  | clear_heading
  | hold_rhumb
  | stop_track
  | p1
  | m1
  | p10
  | m10

/-- The adjustment block of the command handler (delta ∈ {±1, ±10}):
nudge the target of whichever mode is active. -/
def applyDelta (st : State) (b : Best) (delta : ℚ) : State :=
  match st.mode with
  | .BOD =>
    match st.targetMagDeg with
    | some t => { st with targetMagDeg := some (wrap360 (t + delta)) }
    | none => st
  | .APB =>
    match st.trackActive with
    | true =>
      match st.trackBearingMagDeg with
      | some bm =>
        let nb := wrap360 (bm + delta)
        { st with
            trackBearingMagDeg := some nb
            trackBearingTrueDeg :=
              match b.variationDeg with
              | some v => some (wrap360 (nb + v))
              | none => none }
      | none => st
    | false => st

/-- One command-handler request (the POST /cmd route), executed against
the best-available status b computed at request time. -/
def step (st : State) (c : Cmd) (b : Best) : State :=
  match c with
  | .enable => { st with enabled := true }
  | .disable => { st with enabled := false }
  | .mode_bod => { st with mode := .BOD }
  | .mode_apb => { st with mode := .APB }
  | .hold_heading =>
    match b.headingMagDeg with
    | some h => { st with targetMagDeg := some h, mode := .BOD, trackActive := false }
    | none => st
  | .set_heading v =>
    match v with
    | some n => { st with targetMagDeg := some (wrap360 n), mode := .BOD, trackActive := false }
    | none => st
  | .clear_heading => { st with targetMagDeg := none }
  | .hold_rhumb =>
    match b.position with
    | some pos =>
      match b.positionFresh with
      | true =>
        match (match b.cogMagDeg with | some x => some x | none => b.headingMagDeg) with
        | some bm =>
          let bmw := wrap360 bm
          { st with
              trackStart := some pos
              trackBearingMagDeg := some bmw
              trackBearingTrueDeg :=
                match b.variationDeg with
                | some v => some (wrap360 (bmw + v))
                | none => none
              trackActive := true
              mode := .APB
              targetMagDeg := none }
        | none => st
      | false => st
    | none => st
  | .stop_track =>
    { st with trackActive := false, trackStart := none,
              trackBearingMagDeg := none, trackBearingTrueDeg := none }
  | .p1 => applyDelta st b 1
  | .m1 => applyDelta st b (-1)
  | .p10 => applyDelta st b 10
  | .m10 => applyDelta st b (-10)

/-- A sequence of command requests, each paired with the best-available
status observed by that request. -/
def run (st : State) (l : List (Cmd × Best)) : State :=
  l.foldl (fun s cb => step s cb.1 cb.2) st

/-! ## Track geometry (computeXteNmAndSide) -/

/-- The result record of computeXteNmAndSide. -/
structure XteResult where
  nm : ℚ
  side : Char
deriving DecidableEq

/-- Function computeXteNmAndSide from the source, parametrised by the
Math.sin and Math.cos oracles.  Positions are (lat, lon) pairs. -/
def computeXteNmAndSide (sine cosine : ℚ → ℚ) (start cur : ℚ × ℚ)
    (bearingMagDeg : ℚ) : XteResult :=
  let lat0 := degToRad start.1
  let dLat := degToRad (cur.1 - start.1)
  let dLon := degToRad (cur.2 - start.2)
  let R : ℚ := 6371000
  let dN := dLat * R
  let dE := dLon * R * cosine lat0
  let theta := degToRad bearingMagDeg
  let xte_m := -(sine theta) * dE + cosine theta * dN
  let nm := min (|xte_m| / 1852) (999/100)
  let side : Char := if 0 ≤ xte_m then 'R' else 'L'
  { nm := round2 nm, side := side }

/-! ## Sentence encoding -/

/-- Character class A-Z0-9, the class kept by the talker sanitizer. -/
def isUpperAlnumChar (c : Char) : Bool :=
  ('A' ≤ c && c ≤ 'Z') || ('0' ≤ c && c ≤ '9')

/-- Uppercase hexadecimal digit test. -/
def isUpperHexDigit (c : Char) : Bool :=
  ('0' ≤ c && c ≤ '9') || ('A' ≤ c && c ≤ 'F')

/-- The JS string method padStart: left-pad with the character c to the
minimum length n. -/
def jsPadStart (n : Nat) (c : Char) (s : String) : String :=
  String.mk (List.replicate (n - s.length) c) ++ s

/-- Function sanitizeTalker from the source.  none models a null or
undefined option; the JS expression (t or fallback) also replaces the
falsy empty string by the default.  Uppercase, strip everything outside
A-Z0-9, keep the first two characters, default to II when fewer than two
remain. -/
def sanitizeTalker (t : Option String) : String :=
  let s : String :=
    match t with
    | none => "II"
    | some str => if str = "" then "II" else str
  let up := String.mk ((s.data.map Char.toUpper).filter isUpperAlnumChar)
  if 2 ≤ up.length then String.mk (up.data.take 2) else "II"

/-- Function fmtDeg from the source: wrap the angle, then render it with
one decimal and left-zero-pad to width 5 (the wrapped value is an exact
multiple of 1/10, so toFixed(1) prints its tenths digit). -/
def fmtDeg (deg : ℚ) : String :=
  let k : Nat := (jsRound (wrap360 deg * 10)).toNat
  jsPadStart 5 '0' (toString (k / 10) ++ "." ++ toString (k % 10))

/-- Function fmtXteNm from the source: clamp to [0, 9.99] and render with
two decimals (the clamped value produced by the program is an exact
multiple of 1/100). -/
def fmtXteNm (nm : ℚ) : String :=
  let n := max 0 (min (999/100) nm)
  let k : Nat := (jsRound (n * 100)).toNat
  toString (k / 100) ++ "." ++ jsPadStart 2 '0' (toString (k % 100))

/-- The JS rendering n.toString(16) of a nonnegative integer, lowercase. -/
def hexRepr (n : Nat) : String := String.mk (Nat.toDigits 16 n)

/-- Checksum rendering: toString(16), uppercased character by character,
left-padded to two digits. -/
def jsHexByte (n : Nat) : String :=
  jsPadStart 2 '0' (String.mk ((hexRepr n).data.map Char.toUpper))

/-- XOR fold of the char codes of a list of characters. -/
def xorChecksum (l : List Char) : Nat :=
  l.foldl (fun a c => Nat.xor a c.toNat) 0

/-- Function addChecksum from the source: XOR every char code of the
sentence after the leading dollar sign, append star, two uppercase hex
digits and CRLF. -/
def addChecksum (sentence : String) : String :=
  sentence ++ "*" ++ jsHexByte (xorChecksum (sentence.data.drop 1)) ++ "\r\n"

/-- Function buildBOD from the source: a null angle renders as an empty
field. -/
def buildBOD (talker : String) (trueDeg magDeg : Option ℚ) (dest orig : String) : String :=
  let tField := match trueDeg with | some d => fmtDeg d | none => ""
  let mField := match magDeg with | some d => fmtDeg d | none => ""
  addChecksum ("$" ++ talker ++ "BOD," ++ tField ++ ",T," ++ mField ++ ",M," ++
    dest ++ "," ++ orig)

/-- Function buildAPB from the source. -/
def buildAPB (talker : String) (xteNm : ℚ) (xteSide : Char)
    (htsMagDeg htsTrueDeg : Option ℚ) (destId : String) : String :=
  let xte := fmtXteNm xteNm
  let side := if xteSide = 'L' then "L" else "R"
  let htsT := match htsTrueDeg with | some d => fmtDeg d | none => ""
  let htsM := match htsMagDeg with | some d => fmtDeg d | none => ""
  addChecksum ("$" ++ talker ++ "APB,A,A," ++ xte ++ "," ++ side ++ ",N,A,A," ++
    htsT ++ ",T," ++ htsM ++ ",M," ++ destId ++ ",,,")

/-! ## Output scheduler tick -/

/-- One tick of the setInterval output loop, returning the sentence handed
to the sink, or none when emission is suppressed.  The best-available
status b is the one recomputed at the start of the tick; sine and cosine
are the Math.sin and Math.cos oracles used by the cross-track geometry. -/
def tick (sine cosine : ℚ → ℚ) (talker : String) (st : State) (b : Best) : Option String :=
  match st.enabled with
  | false => none
  | true =>
    match st.mode with
    | .BOD =>
      match st.targetMagDeg with
      | none => none
      | some tgt =>
        let trueDeg : Option ℚ :=
          match b.variationDeg with
          | some v => some (wrap360 (tgt + v))
          | none => none
        some (buildBOD talker trueDeg (some tgt) "DEST" "ORIG")
    | .APB =>
      match st.trackActive with
      | false => none
      | true =>
        match st.trackStart with
        | none => none
        | some start =>
          match st.trackBearingMagDeg with
          | none => none
          | some bm =>
            match b.positionFresh with
            | false => none
            | true =>
              match b.position with
              | none => none
              | some cur =>
                let xte := computeXteNmAndSide sine cosine start cur bm
                let htsTrue : Option ℚ :=
                  match b.variationDeg with
                  | some v => some (wrap360 (bm + v))
                  | none => none
                some (buildAPB talker xte.nm xte.side (some bm) htsTrue "RHUMB")

/-! ## Numeric helper lemmas -/

theorem jsMod360_bounds (a : ℚ) : -360 < jsMod a 360 ∧ jsMod a 360 < 360 := by
  unfold jsMod qtrunc
  split
  next h =>
    have h1 : (⌊a / 360⌋ : ℚ) ≤ a / 360 := Int.floor_le _
    have h2 : a / 360 < ⌊a / 360⌋ + 1 := Int.lt_floor_add_one _
    constructor <;> linarith
  next h =>
    have h1 : (⌊-(a / 360)⌋ : ℚ) ≤ -(a / 360) := Int.floor_le _
    have h2 : -(a / 360) < ⌊-(a / 360)⌋ + 1 := Int.lt_floor_add_one _
    constructor <;> push_cast <;> linarith

theorem wrap360_eq_tenths (a : ℚ) :
    ∃ k : ℤ, 0 ≤ k ∧ k ≤ 3600 ∧ wrap360 a = (k : ℚ) / 10 := by
  obtain ⟨hl, hr⟩ := jsMod360_bounds a
  refine ⟨jsRound ((if jsMod a 360 < 0 then jsMod a 360 + 360 else jsMod a 360) * 10),
    ?_, ?_, rfl⟩
  · apply Int.le_floor.mpr
    push_cast
    split <;> linarith
  · have hlt : jsRound ((if jsMod a 360 < 0 then jsMod a 360 + 360 else jsMod a 360) * 10)
        < 3601 := by
      apply Int.floor_lt.mpr
      push_cast
      split <;> linarith
    omega

theorem wrap360_bounds (a : ℚ) : 0 ≤ wrap360 a ∧ wrap360 a ≤ 360 := by
  obtain ⟨k, h0, h1, he⟩ := wrap360_eq_tenths a
  have hk0 : (0 : ℚ) ≤ (k : ℚ) := by exact_mod_cast h0
  have hk1 : (k : ℚ) ≤ 3600 := by exact_mod_cast h1
  rw [he]
  constructor <;> linarith

theorem wrap360_tenths_fixed (k : ℤ) (h0 : 0 ≤ k) (h1 : k ≤ 3599) :
    wrap360 ((k : ℚ) / 10) = (k : ℚ) / 10 := by
  have hk0 : (0 : ℚ) ≤ (k : ℚ) := by exact_mod_cast h0
  have hk1 : (k : ℚ) ≤ 3599 := by exact_mod_cast h1
  have hdiv : (k : ℚ) / 10 / 360 = (k : ℚ) / 3600 := by ring
  have hfl : ⌊(k : ℚ) / 10 / 360⌋ = 0 := by
    rw [hdiv]
    apply Int.floor_eq_zero_iff.mpr
    constructor
    · positivity
    · rw [div_lt_one (by norm_num)]
      linarith
  have hmod : jsMod ((k : ℚ) / 10) 360 = (k : ℚ) / 10 := by
    unfold jsMod qtrunc
    rw [if_pos (by positivity), hfl]
    push_cast
    ring
  unfold wrap360
  simp only [hmod]
  rw [if_neg (by linarith)]
  have hmul : (k : ℚ) / 10 * 10 = (k : ℚ) := by ring
  unfold jsRound
  rw [hmul, add_comm ((k : ℚ)) (1/2), Int.floor_add_int]
  norm_num

theorem wrap360_idem_of_lt (a : ℚ) (h : wrap360 a < 360) :
    wrap360 (wrap360 a) = wrap360 a := by
  obtain ⟨k, h0, h1, he⟩ := wrap360_eq_tenths a
  rw [he] at h ⊢
  have hk : (k : ℚ) < 3600 := by linarith
  have hk39 : k ≤ 3599 := by
    have : k < 3600 := by exact_mod_cast hk
    omega
  exact wrap360_tenths_fixed k h0 hk39

/-- C5: for every angle a, wrap360 a lies in [0, 360] and applying wrap360
again is the identity whenever the result is below 360; but the code can
produce exactly 360 (input 359.99 rounds 3599.9 up to 3600 tenths), so the
claimed range [0, 360) and unconditional idempotence both fail there:
wrap360 359.99 = 360 while wrap360 (wrap360 359.99) = 0. -/
theorem wrap360_range_and_idempotence :
    (∀ a : ℚ, 0 ≤ wrap360 a ∧ wrap360 a ≤ 360) ∧
    (∀ a : ℚ, wrap360 a < 360 → wrap360 (wrap360 a) = wrap360 a) ∧
    wrap360 (35999/100) = 360 ∧
    wrap360 (wrap360 (35999/100)) = 0 := by
  have h360 : wrap360 (35999/100) = 360 := by
    norm_num [wrap360, jsMod, qtrunc, jsRound]
  refine ⟨wrap360_bounds, wrap360_idem_of_lt, h360, ?_⟩
  rw [h360]
  norm_num [wrap360, jsMod, qtrunc, jsRound]

/-- Witness for C5: at input 400 the wrapped value 40 is below 360 and the
conditional idempotence applies. -/
theorem wrap360_range_and_idempotence_witness :
    wrap360 400 < 360 ∧ wrap360 (wrap360 400) = wrap360 400 :=
  ⟨by norm_num [wrap360, jsMod, qtrunc, jsRound],
   wrap360_range_and_idempotence.2.1 400 (by norm_num [wrap360, jsMod, qtrunc, jsRound])⟩

/-- C3: readAngleDeg converts a finite reading r from radians (factor
180/π) exactly when its magnitude is at most 2π + 0.5 and treats it as
degrees otherwise, then applies wrap360; input 1.0 gives 57.3 and input
57.3 gives 57.3.  The claimed codomain [0, 360) fails: the degree reading
359.99 wraps to exactly 360, contradicting the code comment
"return degrees (0..359.9)". -/
theorem readAngleDeg_unit_threshold :
    (∀ r : ℚ, |r| ≤ jsPI * 2 + 1/2 →
      readAngleDeg (some r) = some (wrap360 (radToDeg r))) ∧
    (∀ r : ℚ, ¬ |r| ≤ jsPI * 2 + 1/2 →
      readAngleDeg (some r) = some (wrap360 r)) ∧
    readAngleDeg none = none ∧
    readAngleDeg (some 1) = some (573/10) ∧
    readAngleDeg (some (573/10)) = some (573/10) ∧
    readAngleDeg (some (35999/100)) = some 360 := by
  refine ⟨fun r h => by simp only [readAngleDeg]; rw [if_pos h],
          fun r h => by simp only [readAngleDeg]; rw [if_neg h], rfl, ?_, ?_, ?_⟩
  · have ht : |(1 : ℚ)| ≤ jsPI * 2 + 1/2 := by norm_num [jsPI]
    simp only [readAngleDeg]
    rw [if_pos ht]
    norm_num [wrap360, jsMod, qtrunc, jsRound, radToDeg, jsPI]
  · have ht : ¬ |(573/10 : ℚ)| ≤ jsPI * 2 + 1/2 := by
      rw [abs_of_nonneg (by norm_num : (0:ℚ) ≤ 573/10)]
      norm_num [jsPI]
    simp only [readAngleDeg]
    rw [if_neg ht]
    norm_num [wrap360, jsMod, qtrunc, jsRound]
  · have ht : ¬ |(35999/100 : ℚ)| ≤ jsPI * 2 + 1/2 := by
      rw [abs_of_nonneg (by norm_num : (0:ℚ) ≤ 35999/100)]
      norm_num [jsPI]
    simp only [readAngleDeg]
    rw [if_neg ht]
    norm_num [wrap360, jsMod, qtrunc, jsRound]

/-- Witness for C3: the reading 1.0 satisfies the radians threshold and is
converted through radToDeg. -/
theorem readAngleDeg_unit_threshold_witness :
    |(1 : ℚ)| ≤ jsPI * 2 + 1/2 ∧
    readAngleDeg (some 1) = some (wrap360 (radToDeg 1)) :=
  ⟨by norm_num [jsPI], readAngleDeg_unit_threshold.1 1 (by norm_num [jsPI])⟩

/-- C8: set_heading with a finite value stores wrap360 of it, switches to
heading-hold mode and deactivates the track; with a non-finite value the
state is unchanged; set_heading 400 yields a 40.0 degree target. -/
theorem set_heading_spec :
    (∀ (st : State) (b : Best) (q : ℚ),
      step st (.set_heading (some q)) b =
        { st with targetMagDeg := some (wrap360 q), mode := .BOD, trackActive := false }) ∧
    (∀ (st : State) (b : Best) (q : ℚ),
      (step st (.set_heading (some q)) b).trackActive = false) ∧
    (∀ (st : State) (b : Best), step st (.set_heading none) b = st) ∧
    (∀ (st : State) (b : Best),
      (step st (.set_heading (some 400)) b).targetMagDeg = some 40) := by
  refine ⟨fun st b q => rfl, fun st b q => rfl, fun st b => rfl, fun st b => ?_⟩
  show some (wrap360 400) = some 40
  norm_num [wrap360, jsMod, qtrunc, jsRound]

/-- C4: the fused COG-magnetic value prefers the direct magnetic reading,
then wrap360 (cogTrue - variation) tagged as derived-from-true, then the
magnetic heading tagged as fallback, and is null with a none tag when all
sources are missing; with no direct COG, cogTrue 90 and variation 5 the
result is 85 tagged derived-from-true. -/
theorem bestCogMag_fallback_order :
    (∀ (x : ℚ) (ct v h : Option ℚ), bestCogMag (some x) ct v h = (some x, .direct)) ∧
    (∀ (t v : ℚ) (h : Option ℚ),
      bestCogMag none (some t) (some v) h = (some (wrap360 (t - v)), .derivedFromTrue)) ∧
    (∀ (ct v : Option ℚ) (h : ℚ), ct = none ∨ v = none →
      bestCogMag none ct v (some h) = (some h, .fallbackHeading)) ∧
    (∀ (ct v : Option ℚ), ct = none ∨ v = none →
      bestCogMag none ct v none = (none, .none)) ∧
    bestCogMag none (some 90) (some 5) none = (some 85, .derivedFromTrue) := by
  refine ⟨fun x ct v h => rfl, fun t v h => rfl, ?_, ?_, ?_⟩
  · intro ct v h hc
    rcases hc with hct | hv
    · subst hct; cases v <;> rfl
    · subst hv; cases ct <;> rfl
  · intro ct v hc
    rcases hc with hct | hv
    · subst hct; cases v <;> rfl
    · subst hv; cases ct <;> rfl
  · have hw : wrap360 (90 - 5) = 85 := by norm_num [wrap360, jsMod, qtrunc, jsRound]
    simp [bestCogMag, hw]

/-- Witness for C4: with no direct COG, no true COG and no variation, the
magnetic heading is used and tagged as a fallback. -/
theorem bestCogMag_fallback_order_witness :
    bestCogMag none none none (some 7) = (some 7, CogSource.fallbackHeading) :=
  bestCogMag_fallback_order.2.2.1 none none 7 (Or.inl rfl)

/-! ## State-machine invariants -/

/-- The direction of the track invariant that the code maintains: an
active track always has a start position and a magnetic bearing. -/
def trackInv (st : State) : Bool :=
  !st.trackActive || (st.trackStart.isSome && st.trackBearingMagDeg.isSome)

/-- The two-sided invariant claimed by the specification. -/
def trackIffInv (st : State) : Bool :=
  st.trackActive == (st.trackStart.isSome && st.trackBearingMagDeg.isSome)

theorem step_preserves_trackInv (st : State) (c : Cmd) (b : Best)
    (h : trackInv st = true) : trackInv (step st c b) = true := by
  cases c with
  | enable => simpa [step, trackInv] using h
  | disable => simpa [step, trackInv] using h
  | mode_bod => simpa [step, trackInv] using h
  | mode_apb => simpa [step, trackInv] using h
  | hold_heading => cases hh : b.headingMagDeg <;> simp_all [step, trackInv]
  | set_heading v => cases v <;> simp_all [step, trackInv]
  | clear_heading => simpa [step, trackInv] using h
  | hold_rhumb =>
    cases hp : b.position with
    | none => simpa [step, hp, trackInv] using h
    | some pos =>
      cases hf : b.positionFresh with
      | false => simp_all [step, trackInv]
      | true =>
        cases hc : b.cogMagDeg with
        | some x => simp_all [step, trackInv]
        | none => cases hh : b.headingMagDeg <;> simp_all [step, trackInv]
  | stop_track => simp [step, trackInv]
  | p1 => cases hm : st.mode <;> simp_all [step, applyDelta, trackInv] <;>
      cases ht : st.targetMagDeg <;> cases ha : st.trackActive <;>
      cases hb : st.trackBearingMagDeg <;> simp_all
  | m1 => cases hm : st.mode <;> simp_all [step, applyDelta, trackInv] <;>
      cases ht : st.targetMagDeg <;> cases ha : st.trackActive <;>
      cases hb : st.trackBearingMagDeg <;> simp_all
  | p10 => cases hm : st.mode <;> simp_all [step, applyDelta, trackInv] <;>
      cases ht : st.targetMagDeg <;> cases ha : st.trackActive <;>
      cases hb : st.trackBearingMagDeg <;> simp_all
  | m10 => cases hm : st.mode <;> simp_all [step, applyDelta, trackInv] <;>
      cases ht : st.targetMagDeg <;> cases ha : st.trackActive <;>
      cases hb : st.trackBearingMagDeg <;> simp_all

theorem run_preserves_trackInv (l : List (Cmd × Best)) :
    ∀ st : State, trackInv st = true → trackInv (run st l) = true := by
  induction l with
  | nil => intro st h; exact h
  | cons hd tl ih =>
    intro st h
    exact ih _ (step_preserves_trackInv st hd.1 hd.2 h)

/-- C2 (amended): after every command sequence from the initial state, an
active track has a non-null start position and a non-null magnetic
bearing. -/
theorem track_active_implies_fields :
    ∀ l : List (Cmd × Best), trackInv (run init l) = true :=
  fun l => run_preserves_trackInv l init rfl

/-- A best-available status with a fresh position and a direct magnetic
COG, allowing hold_rhumb to succeed. -/
def bFreshCog : Best :=
  { position := some (0, 0)
    positionFresh := true
    variationDeg := none
    cogMagDeg := some 90
    headingMagDeg := none }

/-- A best-available status with everything missing. -/
def bEmpty : Best :=
  { position := none
    positionFresh := false
    variationDeg := none
    cogMagDeg := none
    headingMagDeg := none }

/-- Counterexample for C2 as stated: after a successful hold_rhumb
followed by set_heading 0, the track is inactive yet its start position
and bearing are still non-null, so the claimed equivalence fails on this
reachable state. -/
theorem track_iff_invariant_counterexample :
    ¬ (∀ l : List (Cmd × Best), trackIffInv (run init l) = true) := by
  intro hall
  have h := hall [(Cmd.hold_rhumb, bFreshCog), (Cmd.set_heading (some 0), bEmpty)]
  have hfalse : trackIffInv
      (run init [(Cmd.hold_rhumb, bFreshCog), (Cmd.set_heading (some 0), bEmpty)]) = false := rfl
  rw [h] at hfalse
  exact Bool.noConfusion hfalse

/-- C7: a hold_rhumb command whose precondition fails (no position, stale
position, or no magnetic course and no magnetic heading) leaves every
state field unchanged. -/
theorem holdRhumb_precondition_noop :
    ∀ (st : State) (b : Best),
      b.position = none ∨ b.positionFresh = false ∨
        (b.cogMagDeg = none ∧ b.headingMagDeg = none) →
      step st .hold_rhumb b = st := by
  intro st b h
  rcases h with hp | hf | ⟨hc, hh⟩
  · simp [step, hp]
  · cases hp : b.position with
    | none => simp [step, hp]
    | some pos => simp [step, hp, hf]
  · cases hp : b.position with
    | none => simp [step, hp]
    | some pos => cases hf : b.positionFresh <;> simp [step, hp, hf, hc, hh]

/-- A best-available status whose position is stale. -/
def bStale : Best :=
  { position := some (1, 2)
    positionFresh := false
    variationDeg := none
    cogMagDeg := some 90
    headingMagDeg := none }

/-- Witness for C7: hold_rhumb against a stale position is a no-op and in
particular leaves the track inactive. -/
theorem holdRhumb_precondition_noop_witness :
    step init .hold_rhumb bStale = init ∧
    (step init .hold_rhumb bStale).trackActive = false := by
  have h := holdRhumb_precondition_noop init bStale (Or.inr (Or.inl rfl))
  exact ⟨h, by rw [h]; rfl⟩

/-- C1: a scheduler tick emits nothing when output is disabled, when
heading-hold has no target, or when track-hold has an inactive track or a
stale position; this holds for every state, in particular every reachable
one, and for arbitrary sine and cosine oracles. -/
theorem tick_no_emission_without_target :
    ∀ (sine cosine : ℚ → ℚ) (talker : String) (st : State) (b : Best),
      st.enabled = false ∨
        (st.mode = .BOD ∧ st.targetMagDeg = none) ∨
        (st.mode = .APB ∧ (st.trackActive = false ∨ b.positionFresh = false)) →
      tick sine cosine talker st b = none := by
  intro sine cosine talker st b h
  rcases h with he | ⟨hm, ht⟩ | ⟨hm, hcase⟩
  · simp [tick, he]
  · cases he : st.enabled with
    | false => simp [tick, he]
    | true => simp [tick, he, hm, ht]
  · cases he : st.enabled with
    | false => simp [tick, he]
    | true =>
      rcases hcase with ha | hf
      · simp [tick, he, hm, ha]
      · cases ha : st.trackActive with
        | false => simp [tick, he, hm, ha]
        | true =>
          cases hs : st.trackStart with
          | none => simp [tick, he, hm, ha, hs]
          | some start =>
            cases hb : st.trackBearingMagDeg with
            | none => simp [tick, he, hm, ha, hs, hb]
            | some bm => simp [tick, he, hm, ha, hs, hb, hf]

/-- Witness for C1: in the initial state (disabled) nothing is emitted. -/
theorem tick_no_emission_without_target_witness :
    tick (fun _ => 0) (fun _ => 0) "II" init bEmpty = none :=
  tick_no_emission_without_target (fun _ => 0) (fun _ => 0) "II" init bEmpty (Or.inl rfl)

/-! ## Geometry lemmas -/

theorem round2_nonneg (q : ℚ) (h : 0 ≤ q) : 0 ≤ round2 q := by
  unfold round2 jsRound
  have hfl : (0 : ℤ) ≤ ⌊q * 100 + 1/2⌋ := by
    apply Int.le_floor.mpr
    push_cast
    linarith
  have : (0 : ℚ) ≤ (⌊q * 100 + 1/2⌋ : ℚ) := by exact_mod_cast hfl
  linarith

theorem round2_le_max (q : ℚ) (h : q ≤ 999/100) : round2 q ≤ 999/100 := by
  unfold round2 jsRound
  have hfl : ⌊q * 100 + 1/2⌋ < 1000 := by
    apply Int.floor_lt.mpr
    push_cast
    linarith
  have h999 : ⌊q * 100 + 1/2⌋ ≤ 999 := by omega
  have : ((⌊q * 100 + 1/2⌋ : ℤ) : ℚ) ≤ 999 := by exact_mod_cast h999
  linarith

/-- The signed cross-track meters formula stated by the specification:
-sin(θ)·east + cos(θ)·north over the local tangent plane, with
north = Δlat in radians times R, east = Δlon in radians times
R·cos(lat0), R = 6371000 and θ the bearing in radians. -/
def specXteMeters (sine cosine : ℚ → ℚ) (start cur : ℚ × ℚ) (brg : ℚ) : ℚ :=
  -(sine (degToRad brg)) * (degToRad (cur.2 - start.2) * 6371000 * cosine (degToRad start.1)) +
    cosine (degToRad brg) * (degToRad (cur.1 - start.1) * 6371000)

/-- C6: the cross-track result is driven by the signed meters value of
the specification formula; the side is R exactly when that value is
nonnegative (zero ties to R) and L exactly when it is negative; the
distance is round2 of the nautical-mile magnitude clamped at 9.99, hence
always within [0, 9.99], and the clamp is applied after the side is fixed
so it never changes it. -/
theorem computeXte_formula_side_clamp :
    ∀ (sine cosine : ℚ → ℚ) (start cur : ℚ × ℚ) (brg : ℚ),
      ((computeXteNmAndSide sine cosine start cur brg).side = 'R' ↔
        0 ≤ specXteMeters sine cosine start cur brg) ∧
      ((computeXteNmAndSide sine cosine start cur brg).side = 'L' ↔
        specXteMeters sine cosine start cur brg < 0) ∧
      (computeXteNmAndSide sine cosine start cur brg).nm =
        round2 (min (|specXteMeters sine cosine start cur brg| / 1852) (999/100)) ∧
      0 ≤ (computeXteNmAndSide sine cosine start cur brg).nm ∧
      (computeXteNmAndSide sine cosine start cur brg).nm ≤ 999/100 := by
  intro sine cosine start cur brg
  set xm := specXteMeters sine cosine start cur brg with hxm
  have hside : (computeXteNmAndSide sine cosine start cur brg).side =
      if 0 ≤ xm then 'R' else 'L' := rfl
  have hnm : (computeXteNmAndSide sine cosine start cur brg).nm =
      round2 (min (|xm| / 1852) (999/100)) := rfl
  refine ⟨?_, ?_, hnm, ?_, ?_⟩
  · rw [hside]
    by_cases hx : 0 ≤ xm
    · rw [if_pos hx]
      simp [hx]
    · rw [if_neg hx]
      constructor
      · intro hcontr
        exact absurd hcontr (by decide)
      · intro hcontr
        exact absurd hcontr hx
  · rw [hside]
    by_cases hx : 0 ≤ xm
    · rw [if_pos hx]
      constructor
      · intro hcontr
        exact absurd hcontr (by decide)
      · intro hcontr
        exact absurd hx (not_le.mpr hcontr)
    · rw [if_neg hx]
      simp [not_le.mp hx]
  · rw [hnm]
    apply round2_nonneg
    apply le_min
    · positivity
    · norm_num
  · rw [hnm]
    apply round2_le_max
    exact min_le_right _ _

/-! ## Sentence-encoding lemmas -/

theorem string_data_append (a b : String) : (a ++ b).data = a.data ++ b.data := by
  cases a
  cases b
  rfl

/-- C10: for any input (string, empty string, null or undefined) the
sanitized talker has exactly two characters, all in A-Z0-9: the input is
uppercased, stripped of other characters, truncated to its first two
characters, and replaced by the default II when fewer than two remain. -/
theorem sanitizeTalker_two_upper_alnum :
    (∀ t : Option String, (sanitizeTalker t).length = 2 ∧
      (sanitizeTalker t).data.all isUpperAlnumChar = true) ∧
    sanitizeTalker (some "gp") = "GP" ∧
    sanitizeTalker (some "a") = "II" ∧
    sanitizeTalker none = "II" ∧
    sanitizeTalker (some "") = "II" ∧
    sanitizeTalker (some "x1!y2z") = "X1" := by
  refine ⟨?_, by decide, by decide, by decide, by decide, by decide⟩
  intro t
  unfold sanitizeTalker
  dsimp only
  set l := (((match t with
    | none => "II"
    | some str => if str = "" then "II" else str) : String).data.map Char.toUpper).filter
    isUpperAlnumChar with hl
  by_cases h2 : 2 ≤ l.length
  · have h2' : 2 ≤ (String.mk l).length := h2
    rw [if_pos h2']
    constructor
    · show (l.take 2).length = 2
      rw [List.length_take]
      exact Nat.min_eq_left h2
    · show (l.take 2).all isUpperAlnumChar = true
      apply List.all_eq_true.mpr
      intro x hx
      exact List.of_mem_filter (List.take_subset 2 l hx)
  · have h2' : ¬ 2 ≤ (String.mk l).length := h2
    rw [if_neg h2']
    exact ⟨rfl, rfl⟩

theorem fmtDeg_834 : fmtDeg (834/10) = "083.4" := by
  have hw : wrap360 (834/10) * 10 = (834 : ℚ) := by
    norm_num [wrap360, jsMod, qtrunc, jsRound]
  have hr : jsRound ((834 : ℚ)) = 834 := by norm_num [jsRound]
  unfold fmtDeg
  rw [hw, hr]
  decide

theorem fmtDeg_90 : fmtDeg 90 = "090.0" := by
  have hw : wrap360 90 * 10 = (900 : ℚ) := by
    norm_num [wrap360, jsMod, qtrunc, jsRound]
  have hr : jsRound ((900 : ℚ)) = 900 := by norm_num [jsRound]
  unfold fmtDeg
  rw [hw, hr]
  decide

set_option maxRecDepth 4000 in
/-- C9: buildBOD produces the body talker ++ "BOD," ++ trueField ++ ",T,"
++ magField ++ ",M," ++ dest ++ "," ++ orig where a null angle renders as
an empty field; the finished sentence is a dollar sign, the body, a star,
the XOR of all char codes strictly between the dollar sign and the star
as exactly two uppercase hex digits, and CRLF. -/
theorem buildBOD_structure :
    (∀ (talker : String) (tD mD : Option ℚ) (dest orig : String),
      buildBOD talker tD mD dest orig =
        "$" ++ (talker ++ "BOD," ++ (match tD with | some d => fmtDeg d | none => "") ++
          ",T," ++ (match mD with | some d => fmtDeg d | none => "") ++ ",M," ++
          dest ++ "," ++ orig) ++ "*" ++
        jsHexByte (xorChecksum (talker ++ "BOD," ++
          (match tD with | some d => fmtDeg d | none => "") ++
          ",T," ++ (match mD with | some d => fmtDeg d | none => "") ++ ",M," ++
          dest ++ "," ++ orig).data) ++ "\r\n") ∧
    (∀ n : Nat, n < 256 →
      (jsHexByte n).length = 2 ∧ (jsHexByte n).data.all isUpperHexDigit = true) ∧
    buildBOD "GP" (some (834/10)) (some 90) "DEST" "ORIG" =
      "$GPBOD,083.4,T,090.0,M,DEST,ORIG*54\r\n" ∧
    buildBOD "GP" none (some 90) "DEST" "ORIG" =
      "$GPBOD,,T,090.0,M,DEST,ORIG*75\r\n" := by
  have hbody : ∀ B : String, ("$" ++ B).data.drop 1 = B.data := by
    intro B
    rw [string_data_append]
    rfl
  refine ⟨?_, by decide, ?_, ?_⟩
  · intro talker tD mD dest orig
    show addChecksum ("$" ++ (talker ++ "BOD," ++ _ ++ ",T," ++ _ ++ ",M," ++
      dest ++ "," ++ orig)) = _
    unfold addChecksum
    rw [hbody]
  · simp only [buildBOD, fmtDeg_834, fmtDeg_90]
    decide
  · simp only [buildBOD, fmtDeg_90]
    decide

/-- Witness for C9: the checksum byte 0x54 of the example sentence renders
as two uppercase hex digits. -/
theorem buildBOD_structure_witness :
    (jsHexByte 84).length = 2 ∧ (jsHexByte 84).data.all isUpperHexDigit = true :=
  buildBOD_structure.2.1 84 (by decide)

end SignalkHts
